import Mathlib

/-!
Verification of the discord-ai-brief daily-summary pipeline.

The system is a single serverless function (`serve` in
`supabase/functions/daily-ai-summary/index.ts`, with a second variant of the
same function in the repository) that collects URLs from Discord messages of
the current local day, normalizes and deduplicates them, scrapes per-URL
content, generates an AI digest and posts it back to Discord.

Strings are embedded as `List Char` (`Str` below).  JavaScript's `URL`
platform class is modelled by an explicit parser/serializer for the fragment
of the WHATWG URL grammar the repository exercises (absolute scheme://host
URLs without userinfo/port); `Date` timestamps are epoch milliseconds
(`Int`), with the Deno edge runtime operating in UTC, so `setHours(0,0,0,0)`
floors a timestamp to its UTC day boundary.  Network calls are modelled by
explicit oracle parameters; a thrown (rejected) `fetch` is an `Except.error`,
a resolved response is `Except.ok` (carrying the status where the code looks
at it).  The observable behaviour of a run is a response value plus a trace
of side effects.
-/

abbrev Str : Type := List Char

/-! ## Character lemmas

`Char.toLower` (used to model JavaScript's `toLowerCase`, which the source
applies to the full serialized URL; the model covers the ASCII range) is
idempotent and fixes every character outside `A`–`Z`. -/

theorem Char.toNat_ofNat_valid (m : Nat) (h : m.isValidChar) :
    (Char.ofNat m).toNat = m := by
  simp only [Char.ofNat, dif_pos h]
  simp [Char.ofNatAux, Char.toNat, UInt32.toNat]

theorem Char.toLower_eq_of_not_upper (c : Char)
    (h : ¬(65 ≤ c.toNat ∧ c.toNat ≤ 90)) : c.toLower = c := by
  simp only [Char.toLower, ge_iff_le]
  rw [if_neg h]

theorem Char.toNat_toLower_of_upper (c : Char)
    (h : 65 ≤ c.toNat ∧ c.toNat ≤ 90) : c.toLower.toNat = c.toNat + 32 := by
  simp only [Char.toLower, ge_iff_le]
  rw [if_pos h]
  exact Char.toNat_ofNat_valid _ (Or.inl (by omega))

theorem Char.toLower_idem (c : Char) : c.toLower.toLower = c.toLower := by
  by_cases h : 65 ≤ c.toNat ∧ c.toNat ≤ 90
  · have h1 := Char.toNat_toLower_of_upper c h
    exact Char.toLower_eq_of_not_upper _ (by omega)
  · rw [Char.toLower_eq_of_not_upper c h, Char.toLower_eq_of_not_upper c h]

theorem Char.toLower_eq_self_of_lower (c : Char)
    (h : 97 ≤ c.toNat ∧ c.toNat ≤ 122) : c.toLower = c :=
  Char.toLower_eq_of_not_upper c (by omega)

theorem Char.toLower_ne_of_out_of_range (c d : Char)
    (hd : ¬(97 ≤ d.toNat ∧ d.toNat ≤ 122)) (h : c ≠ d) : c.toLower ≠ d := by
  by_cases hu : 65 ≤ c.toNat ∧ c.toNat ≤ 90
  · intro he
    have ht := Char.toNat_toLower_of_upper c hu
    rw [he] at ht
    omega
  · rw [Char.toLower_eq_of_not_upper c hu]
    exact h

/-! ## List utilities -/

/-- Greedy scan mirroring the deterministic pieces of the source's regular
expressions and of the WHATWG URL component grammar: `takeUntil stop l`
splits `l` into the longest prefix containing no `stop` character and the
remainder (which is empty or begins with a `stop` character). -/
def takeUntil (stop : Char → Bool) : Str → Str × Str
  | [] => ([], [])
  | c :: cs =>
    if stop c then ([], c :: cs)
    else
      let r := takeUntil stop cs
      (c :: r.1, r.2)

theorem takeUntil_sound (stop : Char → Bool) (l : Str) :
    l = (takeUntil stop l).1 ++ (takeUntil stop l).2 ∧
      (∀ c ∈ (takeUntil stop l).1, stop c = false) ∧
      ((takeUntil stop l).2 = [] ∨
        ∃ c cs, (takeUntil stop l).2 = c :: cs ∧ stop c = true) := by
  induction l with
  | nil => simp [takeUntil]
  | cons c cs ih =>
    by_cases h : stop c
    · refine ⟨by simp [takeUntil, h], by simp [takeUntil, h], ?_⟩
      exact Or.inr ⟨c, cs, by simp [takeUntil, h], h⟩
    · obtain ⟨ih1, ih2, ih3⟩ := ih
      refine ⟨?_, ?_, ?_⟩
      · simpa [takeUntil, h] using ih1
      · intro d hd
        simp only [takeUntil, h] at hd
        simp only [Bool.false_eq_true, if_false, List.mem_cons] at hd
        rcases hd with rfl | hd
        · simpa using h
        · exact ih2 d hd
      · simpa [takeUntil, h] using ih3

theorem takeUntil_exact (stop : Char → Bool) (a b : Str)
    (ha : ∀ c ∈ a, stop c = false)
    (hb : b = [] ∨ ∃ c cs, b = c :: cs ∧ stop c = true) :
    takeUntil stop (a ++ b) = (a, b) := by
  induction a with
  | nil =>
    rcases hb with rfl | ⟨c, cs, rfl, hc⟩
    · simp [takeUntil]
    · simp [takeUntil, hc]
  | cons x xs ih =>
    have hx : stop x = false := ha x (by simp)
    have ih' := ih (fun c hc => ha c (by simp [hc]))
    simp only [List.cons_append, takeUntil, hx]
    simp [ih']

theorem takeUntil_append_frag (stop : Char → Bool) (l : Str)
    (hstop : stop '#' = true) (f : Str) :
    takeUntil stop (l ++ '#' :: f) =
      ((takeUntil stop l).1, (takeUntil stop l).2 ++ '#' :: f) := by
  obtain ⟨h1, h2, h3⟩ := takeUntil_sound stop l
  rcases hab : takeUntil stop l with ⟨a, b⟩
  rw [hab] at h1 h2 h3
  simp only at h1 h2 h3 ⊢
  rcases h3 with he | ⟨c, cs, he, hc⟩
  · subst he
    rw [h1]
    simp only [List.append_nil, List.nil_append]
    exact takeUntil_exact stop _ _ h2 (Or.inr ⟨'#', f, rfl, hstop⟩)
  · subst he
    rw [h1, List.append_assoc]
    exact takeUntil_exact stop _ _ h2 (Or.inr ⟨c, cs ++ '#' :: f, by simp, hc⟩)

/-- Membership test mirroring JavaScript's `String.prototype.includes`. -/
def containsSub (pat s : Str) : Bool := decide (pat <:+: s)

theorem containsSub_iff (pat s : Str) : containsSub pat s = true ↔ pat <:+: s := by
  simp [containsSub]

/-- Trim model of JavaScript's `String.prototype.trim`. -/
def trimStr (s : Str) : Str :=
  (s.dropWhile Char.isWhitespace).reverse.dropWhile Char.isWhitespace |>.reverse

theorem Char.toNat_injective (c d : Char) (h : c.toNat = d.toNat) : c = d :=
  Char.ext (UInt32.ext h)

/-! ## URL model

The source relies on the platform's WHATWG `URL` class:

  function normalizeUrl(url: string): string {
    try {
      const parsed = new URL(url);
      parsed.hash = '';
      return parsed.toString().toLowerCase();
    } catch {
      return url;
    }
  }

`parseURL`/`serializeURL` below model the fragment of the WHATWG grammar the
repository exercises: absolute `scheme://host/path?query#fragment` URLs
without userinfo or port.  As in the platform class, the parser lower-cases
the scheme and the host, defaults an absent path to `/`, and `hash = ''`
followed by `toString()` drops the `#` and everything after it. -/

structure URLRec where
  scheme : Str
  host : Str
  path : Str
  query : Option Str
  fragment : Option Str
deriving DecidableEq, Repr

def isUpperAlpha (c : Char) : Bool := decide (65 ≤ c.toNat ∧ c.toNat ≤ 90)

def isLowerAlpha (c : Char) : Bool := decide (97 ≤ c.toNat ∧ c.toNat ≤ 122)

def isAlphaChar (c : Char) : Bool := isUpperAlpha c || isLowerAlpha c

def isDigitChar (c : Char) : Bool := decide (48 ≤ c.toNat ∧ c.toNat ≤ 57)

def isHostChar (c : Char) : Bool :=
  isAlphaChar c || isDigitChar c || c = '.' || c = '-'

def isLowerHostChar (c : Char) : Bool :=
  isLowerAlpha c || isDigitChar c || c = '.' || c = '-'

def isSchemeStop (c : Char) : Bool := !isAlphaChar c

def isAuthStop (c : Char) : Bool := c = '/' || c = '?' || c = '#'

def isPathStop (c : Char) : Bool := c = '?' || c = '#'

def isFragMark (c : Char) : Bool := c = '#'

def parseEnd (sch host path : Str) (q : Option Str) (r5 : Str) : Option URLRec :=
  match r5 with
  | [] => some ⟨sch, host, path, q, none⟩
  | '#' :: f => some ⟨sch, host, path, q, some f⟩
  | _ => none

def parseAfterPath (sch host path : Str) (r4 : Str) : Option URLRec :=
  match r4 with
  | '?' :: r =>
    let qr := takeUntil isFragMark r
    parseEnd sch host path (some qr.1) qr.2
  | _ => parseEnd sch host path none r4

def parseAfterAuth (sch host : Str) (r3 : Str) : Option URLRec :=
  match r3 with
  | '/' :: _ =>
    let pr := takeUntil isPathStop r3
    parseAfterPath sch host pr.1 pr.2
  | _ => parseAfterPath sch host ['/'] r3

def parseAfterScheme (sch r2 : Str) : Option URLRec :=
  let ar := takeUntil isAuthStop r2
  if ar.1.isEmpty || !ar.1.all isHostChar then none
  else parseAfterAuth sch (ar.1.map Char.toLower) ar.2

def parseURL (s : Str) : Option URLRec :=
  let sr := takeUntil isSchemeStop s
  match sr.2 with
  | ':' :: '/' :: '/' :: r2 =>
    if sr.1.isEmpty then none else parseAfterScheme (sr.1.map Char.toLower) r2
  | _ => none

def queryPart : Option Str → Str
  | some q => '?' :: q
  | none => []

def fragPart : Option Str → Str
  | some f => '#' :: f
  | none => []

def serializeURL (u : URLRec) : Str :=
  u.scheme ++ ':' :: '/' :: '/' ::
    (u.host ++ (u.path ++ (queryPart u.query ++ fragPart u.fragment)))

/-- Well-formedness invariant satisfied by every parser output; exactly the
condition under which `serializeURL` reparses to the same record. -/
def wfURL (u : URLRec) : Bool :=
  !u.scheme.isEmpty && u.scheme.all isLowerAlpha &&
  !u.host.isEmpty && u.host.all isLowerHostChar &&
  decide (u.path.head? = some '/') &&
  u.path.all (fun c => !isPathStop c) &&
  (u.query.getD []).all (fun c => !isFragMark c)

def toLowerStr (s : Str) : Str := s.map Char.toLower

def stripFragment (u : URLRec) : URLRec :=
  { u with fragment := none }

/-- Model of `normalizeUrl` (identical in both source variants): parse as a
URL, clear the fragment, serialize and lower-case; on parse failure return
the input unchanged. -/
def normalizeUrl (s : Str) : Str :=
  match parseURL s with
  | some u => toLowerStr (serializeURL (stripFragment u))
  | none => s

example :
    parseURL "https://Example.com/Path?q=1#frag".toList =
      some ⟨"https".toList, "example.com".toList, "/Path".toList,
        some "q=1".toList, some "frag".toList⟩ := by decide

example :
    parseURL "HTTP://a.b".toList =
      some ⟨"http".toList, "a.b".toList, "/".toList, none, none⟩ := by decide

example : parseURL "notaurl".toList = none := by decide

example :
    normalizeUrl "https://Example.com/Path#frag".toList =
      "https://example.com/path".toList := by decide

example : normalizeUrl "::bad::".toList = "::bad::".toList := by decide

/-! ## Character-class lemmas for the URL grammar -/

theorem isLowerHostChar_ranges (c : Char) (h : isLowerHostChar c = true) :
    (97 ≤ c.toNat ∧ c.toNat ≤ 122) ∨ (48 ≤ c.toNat ∧ c.toNat ≤ 57) ∨
      c.toNat = 46 ∨ c.toNat = 45 := by
  simp only [isLowerHostChar, isLowerAlpha, isDigitChar, Bool.or_eq_true,
    decide_eq_true_eq] at h
  rcases h with ((h | h) | h) | h
  · exact Or.inl h
  · exact Or.inr (Or.inl h)
  · subst h; exact Or.inr (Or.inr (Or.inl rfl))
  · subst h; exact Or.inr (Or.inr (Or.inr rfl))

theorem toLower_fix_of_lowerHost (c : Char) (h : isLowerHostChar c = true) :
    c.toLower = c := by
  rcases isLowerHostChar_ranges c h with h | h | h | h <;>
    exact Char.toLower_eq_of_not_upper c (by omega)

theorem toLower_fix_of_lowerAlpha (c : Char) (h : isLowerAlpha c = true) :
    c.toLower = c := by
  simp only [isLowerAlpha, decide_eq_true_eq] at h
  exact Char.toLower_eq_of_not_upper c (by omega)

theorem isLowerAlpha_toLower_of_alpha (c : Char) (h : isAlphaChar c = true) :
    isLowerAlpha c.toLower = true := by
  simp only [isAlphaChar, isUpperAlpha, isLowerAlpha, Bool.or_eq_true,
    decide_eq_true_eq] at h ⊢
  rcases h with h | h
  · rw [Char.toNat_toLower_of_upper c h]; omega
  · rw [Char.toLower_eq_of_not_upper c (by omega)]; omega

theorem isLowerHostChar_toLower_of_host (c : Char) (h : isHostChar c = true) :
    isLowerHostChar c.toLower = true := by
  simp only [isHostChar, Bool.or_eq_true, decide_eq_true_eq] at h
  rcases h with ((h | h) | h) | h
  · have := isLowerAlpha_toLower_of_alpha c h
    simp [isLowerHostChar, this]
  · simp only [isDigitChar, decide_eq_true_eq] at h
    have he : c.toLower = c := Char.toLower_eq_of_not_upper c (by omega)
    simp [isLowerHostChar, isDigitChar, he, h]
  · subst h
    rfl
  · subst h
    rfl

theorem isLowerHostChar_imp_host (c : Char) (h : isLowerHostChar c = true) :
    isHostChar c = true := by
  simp only [isLowerHostChar, Bool.or_eq_true, decide_eq_true_eq] at h
  rcases h with ((h | h) | h) | h
  · simp only [isLowerAlpha, decide_eq_true_eq] at h
    simp only [isHostChar, isAlphaChar, isLowerAlpha, Bool.or_eq_true,
      decide_eq_true_eq]
    tauto
  · simp [isHostChar, h]
  · simp [isHostChar, h]
  · simp [isHostChar, h]

theorem isSchemeStop_false_of_lowerAlpha (c : Char) (h : isLowerAlpha c = true) :
    isSchemeStop c = false := by
  simp [isSchemeStop, isAlphaChar, h]

theorem char_ne_of_toNat_ne (c d : Char) (h : c.toNat ≠ d.toNat) : c ≠ d :=
  fun he => h (by rw [he])

theorem isAuthStop_false_of_lowerHost (c : Char) (h : isLowerHostChar c = true) :
    isAuthStop c = false := by
  have h1 : ('/').toNat = 47 := rfl
  have h2 : ('?').toNat = 63 := rfl
  have h3 : ('#').toNat = 35 := rfl
  rcases isLowerHostChar_ranges c h with h | h | h | h <;>
  · simp only [isAuthStop, Bool.or_eq_false_iff, decide_eq_false_iff_not]
    exact ⟨⟨char_ne_of_toNat_ne c '/' (by omega),
      char_ne_of_toNat_ne c '?' (by omega)⟩,
      char_ne_of_toNat_ne c '#' (by omega)⟩

theorem isPathStop_toLower (c : Char) (h : isPathStop c = false) :
    isPathStop c.toLower = false := by
  simp only [isPathStop, Bool.or_eq_false_iff, decide_eq_false_iff_not] at h ⊢
  obtain ⟨h1, h2⟩ := h
  constructor
  · exact Char.toLower_ne_of_out_of_range c '?' (by decide) h1
  · exact Char.toLower_ne_of_out_of_range c '#' (by decide) h2

theorem isFragMark_toLower (c : Char) (h : isFragMark c = false) :
    isFragMark c.toLower = false := by
  simp only [isFragMark, decide_eq_false_iff_not] at h ⊢
  exact Char.toLower_ne_of_out_of_range c '#' (by decide) h

theorem map_toLower_fix (l : Str) (h : ∀ c ∈ l, c.toLower = c) :
    l.map Char.toLower = l := by
  induction l with
  | nil => rfl
  | cons c cs ih =>
    simp only [List.map_cons, h c (by simp), ih (fun d hd => h d (by simp [hd]))]

/-! ## Roundtrip: serializing a well-formed record reparses to itself -/

theorem qf_shape (q frag : Option Str) :
    queryPart q ++ fragPart frag = [] ∨
      ∃ c cs, queryPart q ++ fragPart frag = c :: cs ∧ (c = '?' ∨ c = '#') := by
  cases q with
  | some q' => exact Or.inr ⟨'?', q' ++ fragPart frag, by simp [queryPart], Or.inl rfl⟩
  | none =>
    cases frag with
    | some f => exact Or.inr ⟨'#', f, by simp [queryPart, fragPart], Or.inr rfl⟩
    | none => exact Or.inl rfl

theorem parseAfterPath_serialize (sch host path : Str) (q frag : Option Str)
    (hq : ∀ c ∈ q.getD [], isFragMark c = false) :
    parseAfterPath sch host path (queryPart q ++ fragPart frag) =
      some ⟨sch, host, path, q, frag⟩ := by
  cases q with
  | none =>
    cases frag with
    | none => rfl
    | some f => rfl
  | some q' =>
    have hqf : takeUntil isFragMark (q' ++ fragPart frag) = (q', fragPart frag) := by
      refine takeUntil_exact _ _ _ (by simpa using hq) ?_
      cases frag with
      | none => exact Or.inl rfl
      | some f => exact Or.inr ⟨'#', f, rfl, by simp [isFragMark]⟩
    simp only [queryPart, List.cons_append, parseAfterPath, hqf]
    cases frag with
    | none => rfl
    | some f => rfl

theorem parseAfterAuth_serialize (sch host : Str) (p : Str) (q frag : Option Str)
    (hp : ∀ c ∈ '/' :: p, isPathStop c = false)
    (hq : ∀ c ∈ q.getD [], isFragMark c = false) :
    parseAfterAuth sch host
        (('/' :: p) ++ (queryPart q ++ fragPart frag)) =
      some ⟨sch, host, '/' :: p, q, frag⟩ := by
  have hpath : takeUntil isPathStop ('/' :: (p ++ (queryPart q ++ fragPart frag))) =
      ('/' :: p, queryPart q ++ fragPart frag) := by
    have hsplit := takeUntil_exact isPathStop ('/' :: p)
      (queryPart q ++ fragPart frag) hp (by
        rcases qf_shape q frag with h | ⟨c, cs, h, hc⟩
        · exact Or.inl h
        · refine Or.inr ⟨c, cs, h, ?_⟩
          rcases hc with rfl | rfl <;> simp [isPathStop])
    simpa using hsplit
  simp only [List.cons_append, parseAfterAuth, hpath]
  exact parseAfterPath_serialize sch host ('/' :: p) q frag hq

theorem parseAfterScheme_serialize (sch host : Str) (p : Str) (q frag : Option Str)
    (hhost : host ≠ []) (hhostc : ∀ c ∈ host, isLowerHostChar c = true)
    (hp : ∀ c ∈ '/' :: p, isPathStop c = false)
    (hq : ∀ c ∈ q.getD [], isFragMark c = false) :
    parseAfterScheme sch
        (host ++ (('/' :: p) ++ (queryPart q ++ fragPart frag))) =
      some ⟨sch, host, '/' :: p, q, frag⟩ := by
  have hauth : takeUntil isAuthStop
      (host ++ (('/' :: p) ++ (queryPart q ++ fragPart frag))) =
      (host, ('/' :: p) ++ (queryPart q ++ fragPart frag)) := by
    refine takeUntil_exact _ _ _
      (fun c hc => isAuthStop_false_of_lowerHost c (hhostc c hc)) ?_
    exact Or.inr ⟨'/', p ++ (queryPart q ++ fragPart frag), by simp, by simp [isAuthStop]⟩
  have hall : host.all isHostChar = true := by
    rw [List.all_eq_true]
    exact fun c hc => isLowerHostChar_imp_host c (hhostc c hc)
  have hmap : host.map Char.toLower = host :=
    map_toLower_fix host (fun c hc => toLower_fix_of_lowerHost c (hhostc c hc))
  have hcond : (host.isEmpty || !host.all isHostChar) = false := by
    simp [List.isEmpty_iff, hhost, hall]
  simp only [parseAfterScheme, hauth, hcond, Bool.false_eq_true, if_false, hmap]
  exact parseAfterAuth_serialize sch host p q frag hp hq

theorem parse_serialize (u : URLRec) (hw : wfURL u = true) :
    parseURL (serializeURL u) = some u := by
  obtain ⟨sch, host, path, q, frag⟩ := u
  simp only [wfURL, Bool.and_eq_true, Bool.not_eq_true', List.isEmpty_eq_false,
    List.all_eq_true, decide_eq_true_eq] at hw
  obtain ⟨⟨⟨⟨⟨⟨hsch, hschc⟩, hhost⟩, hhostc⟩, hhead⟩, hpathc⟩, hqc⟩ := hw
  rcases path with _ | ⟨c, p⟩
  · simp at hhead
  · simp only [List.head?_cons, Option.some.injEq] at hhead
    subst hhead
    have hschemeSplit : takeUntil isSchemeStop (serializeURL ⟨sch, host, '/' :: p, q, frag⟩) =
        (sch, ':' :: '/' :: '/' ::
          (host ++ (('/' :: p) ++ (queryPart q ++ fragPart frag)))) := by
      refine takeUntil_exact _ _ _
        (fun c hc => isSchemeStop_false_of_lowerAlpha c (hschc c hc)) ?_
      exact Or.inr ⟨':', _, rfl, by decide⟩
    have hmap : sch.map Char.toLower = sch :=
      map_toLower_fix sch (fun c hc => toLower_fix_of_lowerAlpha c (hschc c hc))
    simp only [parseURL, hschemeSplit, List.isEmpty_iff, hsch, if_false, hmap]
    exact parseAfterScheme_serialize sch host p q frag hhost
      (fun c hc => hhostc c hc) (by
        intro c hc
        simpa using hpathc c hc) (by
        intro c hc
        simpa using hqc c hc)

/-! ## Every parser output is well-formed -/

theorem takeUntil_cons_head (stop : Char → Bool) (c : Char) (cs : Str)
    (hc : stop c = false) :
    (takeUntil stop (c :: cs)).1.head? = some c := by
  simp [takeUntil, hc]

theorem parseEnd_components (sch host path : Str) (q : Option Str) (r5 : Str)
    (u : URLRec) (h : parseEnd sch host path q r5 = some u) :
    u.scheme = sch ∧ u.host = host ∧ u.path = path ∧ u.query = q := by
  unfold parseEnd at h
  split at h
  · cases h
    exact ⟨rfl, rfl, rfl, rfl⟩
  · cases h
    exact ⟨rfl, rfl, rfl, rfl⟩
  · cases h

theorem parseAfterPath_components (sch host path : Str) (r4 : Str)
    (u : URLRec) (h : parseAfterPath sch host path r4 = some u) :
    u.scheme = sch ∧ u.host = host ∧ u.path = path ∧
      (∀ c ∈ u.query.getD [], isFragMark c = false) := by
  unfold parseAfterPath at h
  split at h
  · obtain ⟨h1, h2, h3, h4⟩ := parseEnd_components _ _ _ _ _ _ h
    refine ⟨h1, h2, h3, ?_⟩
    rw [h4]
    simpa using (takeUntil_sound isFragMark _).2.1
  · obtain ⟨h1, h2, h3, h4⟩ := parseEnd_components _ _ _ _ _ _ h
    refine ⟨h1, h2, h3, ?_⟩
    rw [h4]
    simp

theorem parseAfterAuth_components (sch host : Str) (r3 : Str)
    (u : URLRec) (h : parseAfterAuth sch host r3 = some u) :
    u.scheme = sch ∧ u.host = host ∧ u.path.head? = some '/' ∧
      (∀ c ∈ u.path, isPathStop c = false) ∧
      (∀ c ∈ u.query.getD [], isFragMark c = false) := by
  unfold parseAfterAuth at h
  split at h
  · obtain ⟨h1, h2, h3, h4⟩ := parseAfterPath_components _ _ _ _ _ h
    refine ⟨h1, h2, ?_, ?_, h4⟩
    · rw [h3]
      exact takeUntil_cons_head isPathStop '/' _ (by decide)
    · rw [h3]
      exact (takeUntil_sound isPathStop _).2.1
  · obtain ⟨h1, h2, h3, h4⟩ := parseAfterPath_components _ _ _ _ _ h
    refine ⟨h1, h2, ?_, ?_, h4⟩
    · rw [h3]
      rfl
    · rw [h3]
      intro c hc
      simp only [List.mem_singleton] at hc
      subst hc
      decide

theorem parseAfterScheme_wf (sch r2 : Str) (u : URLRec)
    (hsch : sch ≠ []) (hschc : ∀ c ∈ sch, isLowerAlpha c = true)
    (h : parseAfterScheme sch r2 = some u) : wfURL u = true := by
  rcases har : takeUntil isAuthStop r2 with ⟨auth, r3⟩
  unfold parseAfterScheme at h
  rw [har] at h
  simp only at h
  by_cases hcond : (auth.isEmpty || !auth.all isHostChar) = true
  · rw [if_pos hcond] at h
    cases h
  · rw [if_neg hcond] at h
    simp only [Bool.or_eq_true, not_or, Bool.not_eq_true, Bool.not_eq_false,
      Bool.not_eq_true'] at hcond
    obtain ⟨hne, hall⟩ := hcond
    have hauthne : auth ≠ [] := by
      cases auth
      · simp at hne
      · simp
    have hallc : ∀ c ∈ auth, isHostChar c = true := List.all_eq_true.mp hall
    obtain ⟨h1, h2, h3, h4, h5⟩ := parseAfterAuth_components _ _ _ _ h
    simp only [wfURL, h1, h2, h3, Bool.and_eq_true, List.all_eq_true,
      decide_eq_true_eq]
    refine ⟨⟨⟨⟨⟨⟨?_, ?_⟩, ?_⟩, ?_⟩, trivial⟩, ?_⟩, ?_⟩
    · simpa using hsch
    · exact hschc
    · simp [List.map_eq_nil_iff, hauthne]
    · intro c hc
      simp only [List.mem_map] at hc
      obtain ⟨d, hd, rfl⟩ := hc
      exact isLowerHostChar_toLower_of_host d (hallc d hd)
    · intro c hc
      simp [h4 c hc]
    · intro c hc
      simp [h5 c hc]

theorem parse_wf (s : Str) (u : URLRec) (h : parseURL s = some u) :
    wfURL u = true := by
  rcases hsr : takeUntil isSchemeStop s with ⟨schRaw, r1⟩
  have hsound := (takeUntil_sound isSchemeStop s).2.1
  rw [hsr] at hsound
  simp only at hsound
  unfold parseURL at h
  rw [hsr] at h
  simp only at h
  split at h
  · split at h
    · cases h
    · rename_i hne
      refine parseAfterScheme_wf _ _ _ ?_ ?_ h
      · simp only [ne_eq, List.map_eq_nil_iff]
        intro hx
        rw [hx] at hne
        exact hne rfl
      · intro c hc
        simp only [List.mem_map] at hc
        obtain ⟨d, hd, rfl⟩ := hc
        have hd2 : isSchemeStop d = false := hsound d hd
        have hd3 : isAlphaChar d = true := by
          simpa [isSchemeStop] using hd2
        exact isLowerAlpha_toLower_of_alpha d hd3
  · cases h

/-! ## Lower-casing a serialized URL -/

/-- Record with every component lower-cased; `toLowerStr ∘ serializeURL`
factors through it. -/
def lowerRec (u : URLRec) : URLRec :=
  ⟨toLowerStr u.scheme, toLowerStr u.host, toLowerStr u.path,
    u.query.map toLowerStr, u.fragment.map toLowerStr⟩

theorem lower_serialize (u : URLRec) :
    toLowerStr (serializeURL u) = serializeURL (lowerRec u) := by
  obtain ⟨sch, host, path, q, frag⟩ := u
  have hcolon : Char.toLower ':' = ':' := rfl
  have hslash : Char.toLower '/' = '/' := rfl
  have hq : Char.toLower '?' = '?' := rfl
  have hh : Char.toLower '#' = '#' := rfl
  cases q with
  | none =>
    cases frag with
    | none =>
      simp [serializeURL, lowerRec, toLowerStr, queryPart, fragPart,
        List.map_append, hcolon, hslash]
    | some f =>
      simp [serializeURL, lowerRec, toLowerStr, queryPart, fragPart,
        List.map_append, hcolon, hslash, hh]
  | some q' =>
    cases frag with
    | none =>
      simp [serializeURL, lowerRec, toLowerStr, queryPart, fragPart,
        List.map_append, hcolon, hslash, hq]
    | some f =>
      simp [serializeURL, lowerRec, toLowerStr, queryPart, fragPart,
        List.map_append, hcolon, hslash, hq, hh]

theorem toLowerStr_idem (s : Str) : toLowerStr (toLowerStr s) = toLowerStr s := by
  simp only [toLowerStr, List.map_map]
  exact List.map_congr_left (fun c _ => Char.toLower_idem c)

theorem lowerRec_idem (u : URLRec) : lowerRec (lowerRec u) = lowerRec u := by
  obtain ⟨sch, host, path, q, frag⟩ := u
  cases q <;> cases frag <;>
    simp [lowerRec, toLowerStr_idem, Option.map_map, Function.comp]

theorem wf_lowerRec (u : URLRec) (hw : wfURL u = true) :
    wfURL (lowerRec u) = true := by
  obtain ⟨sch, host, path, q, frag⟩ := u
  simp only [wfURL, Bool.and_eq_true, Bool.not_eq_true', List.isEmpty_eq_false,
    List.all_eq_true, decide_eq_true_eq] at hw ⊢
  obtain ⟨⟨⟨⟨⟨⟨hsch, hschc⟩, hhost⟩, hhostc⟩, hhead⟩, hpathc⟩, hqc⟩ := hw
  have hschfix : toLowerStr sch = sch :=
    map_toLower_fix sch (fun c hc => toLower_fix_of_lowerAlpha c (hschc c hc))
  have hhostfix : toLowerStr host = host :=
    map_toLower_fix host (fun c hc => toLower_fix_of_lowerHost c (hhostc c hc))
  refine ⟨⟨⟨⟨⟨⟨?_, ?_⟩, ?_⟩, ?_⟩, ?_⟩, ?_⟩, ?_⟩
  · simp [lowerRec, hschfix, hsch]
  · intro c hc
    simp only [lowerRec, hschfix] at hc
    exact hschc c hc
  · simp [lowerRec, hhostfix, hhost]
  · intro c hc
    simp only [lowerRec, hhostfix] at hc
    exact hhostc c hc
  · rcases path with _ | ⟨c, p⟩
    · simp at hhead
    · simp only [List.head?_cons, Option.some.injEq] at hhead
      subst hhead
      simp [lowerRec, toLowerStr]
  · intro c hc
    simp only [lowerRec, toLowerStr, List.mem_map] at hc
    obtain ⟨d, hd, rfl⟩ := hc
    simp [isPathStop_toLower d (hpathc d hd)]
  · intro c hc
    rcases q with _ | q'
    · simp [lowerRec] at hc
    · simp only [lowerRec, toLowerStr, Option.map, Option.getD,
        List.mem_map] at hc
      obtain ⟨d, hd, rfl⟩ := hc
      have hfm : isFragMark d = false := hqc d (by simpa using hd)
      simp [isFragMark_toLower d hfm]

theorem wf_stripFragment (u : URLRec) (hw : wfURL u = true) :
    wfURL (stripFragment u) = true := by
  obtain ⟨sch, host, path, q, frag⟩ := u
  simpa [wfURL, stripFragment] using hw

theorem stripFragment_of_none (u : URLRec) (h : u.fragment = none) :
    stripFragment u = u := by
  obtain ⟨sch, host, path, q, frag⟩ := u
  simp only at h
  subst h
  rfl

theorem stripFragment_lowerRec_stripFragment (u : URLRec) :
    stripFragment (lowerRec (stripFragment u)) = lowerRec (stripFragment u) := by
  apply stripFragment_of_none
  simp [lowerRec, stripFragment]

/-! ## Normalization facts: idempotence and fragment invariance -/

theorem normalize_parse (s : Str) (u : URLRec) (hp : parseURL s = some u) :
    normalizeUrl s = serializeURL (lowerRec (stripFragment u)) ∧
      parseURL (normalizeUrl s) = some (lowerRec (stripFragment u)) := by
  have hwf := parse_wf s u hp
  have heq : normalizeUrl s = serializeURL (lowerRec (stripFragment u)) := by
    simp only [normalizeUrl, hp]
    exact lower_serialize (stripFragment u)
  refine ⟨heq, ?_⟩
  rw [heq]
  exact parse_serialize _ (wf_lowerRec _ (wf_stripFragment u hwf))

theorem parseEnd_append_frag (sch host path : Str) (q : Option Str) (r5 : Str)
    (u : URLRec) (h : parseEnd sch host path q r5 = some u)
    (hf : u.fragment = none) (f : Str) :
    parseEnd sch host path q (r5 ++ '#' :: f) =
      some { u with fragment := some f } := by
  unfold parseEnd at h
  split at h
  · cases h
    rfl
  · cases h
    simp at hf
  · cases h

theorem parseAfterPath_append_frag (sch host path : Str) (r4 : Str)
    (u : URLRec) (h : parseAfterPath sch host path r4 = some u)
    (hf : u.fragment = none) (f : Str) :
    parseAfterPath sch host path (r4 ++ '#' :: f) =
      some { u with fragment := some f } := by
  unfold parseAfterPath at h
  split at h
  · rename_i r
    have hq := takeUntil_append_frag isFragMark r (by decide) f
    simp only [List.cons_append, parseAfterPath, hq]
    exact parseEnd_append_frag _ _ _ _ _ _ h hf f
  · rename_i hno
    unfold parseAfterPath
    split
    · rename_i r' heq
      exfalso
      rcases r4 with _ | ⟨c, r⟩
      · simp only [List.nil_append, List.cons.injEq] at heq
        obtain ⟨hc, -⟩ := heq
        cases hc
      · simp only [List.cons_append, List.cons.injEq] at heq
        obtain ⟨hc, -⟩ := heq
        subst hc
        exact hno r rfl
    · exact parseEnd_append_frag _ _ _ _ _ _ h hf f

theorem parseAfterAuth_append_frag (sch host : Str) (r3 : Str)
    (u : URLRec) (h : parseAfterAuth sch host r3 = some u)
    (hf : u.fragment = none) (f : Str) :
    parseAfterAuth sch host (r3 ++ '#' :: f) =
      some { u with fragment := some f } := by
  unfold parseAfterAuth at h
  split at h
  · rename_i tail
    simp only at h
    have hp := takeUntil_append_frag isPathStop ('/' :: tail) (by decide) f
    simp only [List.cons_append] at hp ⊢
    simp only [parseAfterAuth, hp]
    exact parseAfterPath_append_frag _ _ _ _ _ h hf f
  · rename_i hno
    unfold parseAfterAuth
    split
    · rename_i tail heq
      exfalso
      rcases r3 with _ | ⟨c, r⟩
      · simp only [List.nil_append, List.cons.injEq] at heq
        obtain ⟨hc, -⟩ := heq
        cases hc
      · simp only [List.cons_append, List.cons.injEq] at heq
        obtain ⟨hc, -⟩ := heq
        subst hc
        exact hno r rfl
    · exact parseAfterPath_append_frag _ _ _ _ _ h hf f

theorem parseAfterScheme_append_frag (sch r2 : Str) (u : URLRec)
    (h : parseAfterScheme sch r2 = some u) (hf : u.fragment = none) (f : Str) :
    parseAfterScheme sch (r2 ++ '#' :: f) =
      some { u with fragment := some f } := by
  rcases har : takeUntil isAuthStop r2 with ⟨auth, r3⟩
  have har2 := takeUntil_append_frag isAuthStop r2 (by decide) f
  rw [har] at har2
  simp only at har2
  unfold parseAfterScheme at h ⊢
  rw [har] at h
  rw [har2]
  simp only at h ⊢
  by_cases hcond : (auth.isEmpty || !auth.all isHostChar) = true
  · rw [if_pos hcond] at h
    cases h
  · rw [if_neg hcond] at h
    rw [if_neg hcond]
    exact parseAfterAuth_append_frag _ _ _ _ h hf f

theorem parseURL_append_frag (s : Str) (u : URLRec)
    (h : parseURL s = some u) (hf : u.fragment = none) (f : Str) :
    parseURL (s ++ '#' :: f) = some { u with fragment := some f } := by
  rcases hsr : takeUntil isSchemeStop s with ⟨schRaw, r1⟩
  have hsr2 := takeUntil_append_frag isSchemeStop s (by decide) f
  rw [hsr] at hsr2
  simp only at hsr2
  unfold parseURL at h ⊢
  rw [hsr] at h
  rw [hsr2]
  simp only at h ⊢
  split at h
  · rename_i r2
    split
    · rename_i r2' heq
      simp only [List.cons_append, List.cons.injEq] at heq
      obtain ⟨-, -, -, hr⟩ := heq
      subst hr
      split at h
      · cases h
      · rename_i hne
        rw [if_neg hne]
        exact parseAfterScheme_append_frag _ _ _ h hf f
    · rename_i hno
      exfalso
      exact hno (r2 ++ '#' :: f) (by simp)
  · cases h

/-- C9: URL normalization is idempotent: for every input string, applying
`normalizeUrl` to the result of `normalizeUrl` returns it unchanged, on both
the parse-success path and the parse-failure passthrough path. -/
theorem claim_C9_normalizeUrl_idempotent (s : Str) :
    normalizeUrl (normalizeUrl s) = normalizeUrl s := by
  cases hp : parseURL s with
  | none => simp [normalizeUrl, hp]
  | some u =>
    obtain ⟨heq, hp2⟩ := normalize_parse s u hp
    rw [heq] at hp2
    rw [heq]
    simp only [normalizeUrl, hp2]
    rw [stripFragment_lowerRec_stripFragment, lower_serialize, lowerRec_idem]

theorem stripFragment_set (u : URLRec) (f : Str) :
    stripFragment { u with fragment := some f } = stripFragment u := rfl

/-- C8: normalizing an absolute parseable URL with a trailing fragment
appended and normalizing it without the fragment yield the same CandidateURL
value (the fragment is stripped before lower-casing the serialized form). -/
theorem claim_C8_fragment_invariant (s f : Str) (u : URLRec)
    (hp : parseURL s = some u) (hf : u.fragment = none) :
    normalizeUrl (s ++ '#' :: f) = normalizeUrl s := by
  have h2 := parseURL_append_frag s u hp hf f
  simp only [normalizeUrl, hp, h2, stripFragment_set]

theorem claim_C8_fragment_invariant_witness :
    (parseURL "https://a.com/x".toList =
        some ⟨"https".toList, "a.com".toList, "/x".toList, none, none⟩) ∧
      normalizeUrl ("https://a.com/x".toList ++ '#' :: "sec".toList) =
        normalizeUrl "https://a.com/x".toList :=
  ⟨by decide,
    claim_C8_fragment_invariant _ _
      ⟨"https".toList, "a.com".toList, "/x".toList, none, none⟩
      (by decide) rfl⟩

/-! ## Host membership in the normalized form (used by the exclusion claim) -/

theorem host_infix_serialize (u : URLRec) : u.host <:+: serializeURL u :=
  ⟨u.scheme ++ [':', '/', '/'],
    u.path ++ (queryPart u.query ++ fragPart u.fragment), by
      simp [serializeURL]⟩

theorem host_infix_normalize (raw : Str) (u : URLRec)
    (hp : parseURL raw = some u) : u.host <:+: normalizeUrl raw := by
  obtain ⟨heq, -⟩ := normalize_parse raw u hp
  rw [heq]
  have hwf := parse_wf raw u hp
  have hhostc : ∀ c ∈ u.host, isLowerHostChar c = true := by
    simp only [wfURL, Bool.and_eq_true, List.all_eq_true] at hwf
    exact hwf.1.1.1.2
  have hfix : toLowerStr u.host = u.host :=
    map_toLower_fix u.host (fun c hc => toLower_fix_of_lowerHost c (hhostc c hc))
  have : (lowerRec (stripFragment u)).host = u.host := by
    simp [lowerRec, stripFragment, hfix]
  rw [show u.host = (lowerRec (stripFragment u)).host from this.symm]
  exact host_infix_serialize _

/-! ## Day-window computation (Message Collector)

Source (identical in both variants):

  const now = new Date();
  const chicagoOffset = -6 * 60; // CST offset in minutes
  const localNow = new Date(now.getTime() + chicagoOffset * 60000);
  const startOfDay = new Date(localNow.setHours(0, 0, 0, 0));
  const endOfDay = new Date(localNow.setHours(23, 59, 59, 999));
  ...
  if (messageTime >= startOfDay && messageTime <= endOfDay) { ... }

The Deno edge runtime's clock is UTC, so `setHours(0,0,0,0)` floors the
shifted timestamp to a UTC day boundary (flooring toward minus infinity, as
JavaScript calendars do); the second `setHours` call then lands on the same
day's 23:59:59.999.  The resulting bounds are compared directly against raw
message timestamps — the code never shifts the bounds back by the offset. -/

def msPerDay : Int := 86400000

def chicagoOffsetMs : Int := -6 * 60 * 60000

def floorToDay (t : Int) : Int := msPerDay * Int.fdiv t msPerDay

def startOfDay (now : Int) : Int := floorToDay (now + chicagoOffsetMs)

def endOfDay (now : Int) : Int := startOfDay now + (msPerDay - 1)

/-- Message filter as implemented: compare the raw timestamp against the
un-shifted bounds. -/
def keepMessage (now t : Int) : Bool :=
  decide (startOfDay now ≤ t) && decide (t ≤ endOfDay now)

/-- Day-window bounds following the spec's words (spec section 4.1): shift
"now" by the fixed offset, floor/ceil to day boundaries, and shift the bounds
back by the same offset before comparing against message timestamps. -/
def startOfDaySpec (now : Int) : Int :=
  floorToDay (now + chicagoOffsetMs) - chicagoOffsetMs

def endOfDaySpec (now : Int) : Int := startOfDaySpec now + (msPerDay - 1)

/-- Message filter following the spec's words. -/
def keepMessageSpec (now t : Int) : Bool :=
  decide (startOfDaySpec now ≤ t) && decide (t ≤ endOfDaySpec now)

/-- C1: the source's day window diverges from the specified one.  At
`now = 0` (1970-01-01T00:00:00Z, 18:00 of 1969-12-31 in America/Chicago) the
code's window is the UTC-aligned interval [-86400000, -1] — bounds shifted by
the offset but never shifted back — so the message stamped at t = 0 is
rejected, while the window described by the claim (bounds shifted back) is
[-64800000, 21599999] and keeps it.  The code's window is not any
America/Chicago calendar day (Chicago day starts are ≡ 21600000 mod
86400000), contradicting the source's own comment. -/
theorem claim_C1_day_window_divergence :
    keepMessage 0 0 = false ∧ keepMessageSpec 0 0 = true ∧
      startOfDay 0 = -86400000 ∧ endOfDay 0 = -1 ∧
      startOfDaySpec 0 = -64800000 ∧ endOfDaySpec 0 = 21599999 := by
  decide

/-! ## Run pipeline (the `serve` handler, part_002 variant)

The `serve` handler of `src/unnamed/part_002` is modelled as a pure function
from a `ServeEnv` to a response plus a trace of side effects.  Discord
channel reads are pre-resolved in the environment (`none` models a non-ok
HTTP status, which the code logs and skips); a message's URL-regex matches
and embed `url` fields are carried as lists (the regex extraction itself is
not at issue in any claim); `scrape` is the `scrapeArticle` call for one URL
(`none` models both a null return and a caught per-URL throw); `model` is
the Gemini `generateContent` call on a prompt (`error` models a thrown
`Google API error`); `postFetch` is the final Discord message POST
(`error` models a rejected fetch, `ok status` a resolved response — whose
status the code never reads). -/

structure ArticleData where
  url : Str
  title : Str
  text : Str
deriving DecidableEq, Repr

structure DiscordMessage where
  contentUrls : List Str
  embedUrls : List (Option Str)
  timestamp : Int
deriving DecidableEq, Repr

structure DiscordPost where
  body : Str
  attachment : Option (Str × Str)
deriving DecidableEq, Repr

inductive Effect where
  | scrapeCall (url : Str)
  | transcriptApiCall
  | modelCall (promptText : Str)
  | postMessage (p : DiscordPost)
deriving DecidableEq, Repr

structure RunResponse where
  success : Bool
  status : Nat
  linkCount : Option Nat
  articleCount : Option Nat
  filename : Option Str
  summaryPreview : Option Str
  message : Option Str
  errorMsg : Option Str
deriving DecidableEq, Repr

structure ServeEnv where
  channels : List (Option (List DiscordMessage))
  now : Int
  todayStr : Str
  scrape : Str → Option ArticleData
  model : Str → Except Str Str
  postFetch : Str → Except Str Nat

def redditStr : Str := "reddit.com".toList

/-- URL insertion of the collection loop: normalize, skip any normalized URL
containing the excluded substring, insert into the (insertion-ordered)
dedup set. -/
def addUrl (acc : List Str) (raw : Str) : List Str :=
  let n := normalizeUrl raw
  if containsSub redditStr n then acc
  else if n ∈ acc then acc else acc ++ [n]

def collectMessage (now : Int) (acc : List Str) (m : DiscordMessage) : List Str :=
  if keepMessage now m.timestamp then
    let acc1 := m.contentUrls.foldl addUrl acc
    m.embedUrls.foldl (fun a e => match e with | some u => addUrl a u | none => a) acc1
  else acc

def collectChannel (now : Int) (acc : List Str) (ch : Option (List DiscordMessage)) :
    List Str :=
  match ch with
  | none => acc
  | some msgs => msgs.foldl (collectMessage now) acc

/-- CandidateURL set of a run, in insertion order. -/
def collectUrls (env : ServeEnv) : List Str :=
  env.channels.foldl (collectChannel env.now) []

def noLinksMessage (today : Str) : Str :=
  "# Daily AI News — ".toList ++ today ++ "\n\n*No links found for today.*".toList

def noContentMessage (today : Str) (n : Nat) : Str :=
  "# Daily AI News — ".toList ++ today ++
    "\n\n*No articles could be scraped from the ".toList ++
    (toString n).toList ++ " links found.*".toList

def noSubstantialDigest (today : Str) : Str :=
  "# Daily AI News — ".toList ++ today ++
    "\n\n*No substantial content could be extracted from the articles found.*".toList

def fileName (today : Str) : Str :=
  "ai-news-".toList ++ today ++ ".md".toList

def fileNotice (today : Str) : Str :=
  "# Daily AI News Summary — ".toList ++ today ++
    "\n\n*Summary attached as file (too long for inline message)*".toList

/-- Publisher decision of `postToDiscord`: over the 1800-character threshold
the digest goes out as a named file attachment with a short inline notice,
otherwise inline as the message body. -/
def buildPost (today content : Str) : DiscordPost :=
  if 1800 < content.length then
    ⟨fileNotice today, some (fileName today, content)⟩
  else
    ⟨content, none⟩

/-- Filter of `generateSummary`: `articles.filter(a => a.text &&
a.text.trim().length > 20)`. -/
def validArticles (arts : List ArticleData) : List ArticleData :=
  arts.filter (fun a => !a.text.isEmpty && decide (20 < (trimStr a.text).length))

def articleLine (idx : Nat) (a : ArticleData) : Str :=
  (toString (idx + 1)).toList ++ ". ".toList ++ a.title ++ "\nURL: ".toList ++
    a.url ++ "\nContent: ".toList ++ a.text.take 500

def articleListStr (arts : List ArticleData) : Str :=
  List.intercalate "\n\n".toList (arts.mapIdx articleLine)

/-- Prompt template of `generateSummary` (part_002 variant), rendered over
the threshold-qualifying records. -/
def promptFor (today : Str) (valid : List ArticleData) : Str :=
  "You are generating a daily AI news summary. Below are ".toList ++
  (toString valid.length).toList ++
  " articles and videos that were shared today.\n\nIMPORTANT: You must immediately generate the summary in the specified format. Do not ask for more information.\n\nArticles and Videos:\n".toList ++
  articleListStr valid ++
  "\n\nGenerate a Markdown summary NOW with this exact structure:\n\n# Daily AI News — ".toList ++
  today ++
  " (America/Chicago)\n\n## TL;DR\n(5-10 bullet points of the most important updates)\n\n## Notable Launches & Updates\n(Product releases, feature announcements)\n\n## Research & Papers\n(Academic papers, technical research)\n\n## Funding & Policy\n(Investments, regulations, policy changes)\n\n## Video Summaries\n(For videos with transcripts, provide a concise summary of the key points discussed)\n\n## All Links\n(For each article/video: - **[Title](URL)**: One-line summary)\n\nUse concrete facts, no hype. Be specific about numbers, companies, and products. For video transcripts, provide a brief summary of the main topics discussed.".toList

/-- Digest generation: short-circuits to a fixed digest without a model call
when no record passes the threshold; otherwise one model call whose failure
is rethrown. -/
def genSummary (today : Str) (arts : List ArticleData)
    (model : Str → Except Str Str) : Except Str Str × List Effect :=
  if (validArticles arts).isEmpty then
    (Except.ok (noSubstantialDigest today), [])
  else
    match model (promptFor today (validArticles arts)) with
    | Except.ok t =>
      (Except.ok t, [Effect.modelCall (promptFor today (validArticles arts))])
    | Except.error e =>
      (Except.error e, [Effect.modelCall (promptFor today (validArticles arts))])

def errResponse (e : Str) : RunResponse :=
  ⟨false, 500, none, none, none, none, none, some e⟩

def noLinksResponse : RunResponse :=
  ⟨true, 200, some 0, none, none, none, some ("No links found".toList), none⟩

def noContentResponse (n : Nat) : RunResponse :=
  ⟨true, 200, some n, some 0, none, none, some ("No articles scraped".toList), none⟩

def mainResponse (n k : Nat) (today summary : Str) : RunResponse :=
  ⟨true, 200, some n, some k, some (fileName today),
    some (summary.take 200 ++ "...".toList), none, none⟩

/-- Whole-run model of the `serve` handler (part_002 variant). -/
def runServe (env : ServeEnv) : RunResponse × List Effect :=
  if (collectUrls env).isEmpty then
    match env.postFetch (noLinksMessage env.todayStr) with
    | Except.error e =>
      (errResponse e,
        [Effect.postMessage (buildPost env.todayStr (noLinksMessage env.todayStr))])
    | Except.ok _ =>
      (noLinksResponse,
        [Effect.postMessage (buildPost env.todayStr (noLinksMessage env.todayStr))])
  else
    if ((collectUrls env).filterMap env.scrape).isEmpty then
      match env.postFetch (noContentMessage env.todayStr (collectUrls env).length) with
      | Except.error e =>
        (errResponse e,
          (collectUrls env).map Effect.scrapeCall ++
            [Effect.postMessage (buildPost env.todayStr
              (noContentMessage env.todayStr (collectUrls env).length))])
      | Except.ok _ =>
        (noContentResponse (collectUrls env).length,
          (collectUrls env).map Effect.scrapeCall ++
            [Effect.postMessage (buildPost env.todayStr
              (noContentMessage env.todayStr (collectUrls env).length))])
    else
      match genSummary env.todayStr ((collectUrls env).filterMap env.scrape)
          env.model with
      | (Except.error e, gEffs) =>
        (errResponse e, (collectUrls env).map Effect.scrapeCall ++ gEffs)
      | (Except.ok summary, gEffs) =>
        match env.postFetch summary with
        | Except.error e =>
          (errResponse e,
            (collectUrls env).map Effect.scrapeCall ++ gEffs ++
              [Effect.postMessage (buildPost env.todayStr summary)])
        | Except.ok _ =>
          (mainResponse (collectUrls env).length
              ((collectUrls env).filterMap env.scrape).length env.todayStr summary,
            (collectUrls env).map Effect.scrapeCall ++ gEffs ++
              [Effect.postMessage (buildPost env.todayStr summary)])

/-! ## Pipeline facts -/

/-- C5: the Publisher posts a digest string of length 1801 as a file
attachment named with the run's date accompanied by the short inline notice,
posts a digest of length 1800 inline as the message body, and the
inline/attachment switch is exactly at the 1800-character threshold. -/
theorem claim_C5_publish_threshold (today : Str) :
    buildPost today (List.replicate 1801 'a') =
        ⟨fileNotice today, some (fileName today, List.replicate 1801 'a')⟩ ∧
      buildPost today (List.replicate 1800 'a') =
        ⟨List.replicate 1800 'a', none⟩ ∧
      ∀ c : Str, (buildPost today c).attachment.isSome = true ↔ 1800 < c.length := by
  refine ⟨?_, ?_, ?_⟩
  · norm_num [buildPost]
  · norm_num [buildPost]
  · intro c
    by_cases h : 1800 < c.length
    · simp [buildPost, h]
    · simp [buildPost, h]

/-- C4: a run whose deduplicated CandidateURL set is empty posts exactly one
"no links found" message, returns the success response with linkCount = 0,
and performs no scrape call and no model-generation call (the trace consists
of that single post); stated under the assumption that the single publish
fetch itself resolves rather than throws. -/
theorem claim_C4_empty_short_circuit (env : ServeEnv) (st : Nat)
    (hurls : collectUrls env = [])
    (hpost : env.postFetch (noLinksMessage env.todayStr) = Except.ok st) :
    runServe env =
      (noLinksResponse,
        [Effect.postMessage (buildPost env.todayStr (noLinksMessage env.todayStr))]) := by
  unfold runServe
  rw [hurls]
  simp only [List.isEmpty_nil, if_true, hpost]

/-- Shape of a run's response: an error, one of the two fallback responses,
or the main success response. -/
theorem runServe_response (env : ServeEnv) :
    (∃ e, (runServe env).1 = errResponse e) ∨
      (runServe env).1 = noLinksResponse ∨
      (runServe env).1 = noContentResponse (collectUrls env).length ∨
      ∃ s, (runServe env).1 = mainResponse (collectUrls env).length
        ((collectUrls env).filterMap env.scrape).length env.todayStr s := by
  unfold runServe
  split
  · split
    · exact Or.inl ⟨_, rfl⟩
    · exact Or.inr (Or.inl rfl)
  · split
    · split
      · exact Or.inl ⟨_, rfl⟩
      · exact Or.inr (Or.inr (Or.inl rfl))
    · split
      · exact Or.inl ⟨_, rfl⟩
      · split
        · exact Or.inl ⟨_, rfl⟩
        · exact Or.inr (Or.inr (Or.inr ⟨_, rfl⟩))

/-- C10: whenever a run's response reports both counts, articleCount is at
most linkCount: the Content Fetcher is called once per candidate URL and
yields at most one record per call, so the records are a `filterMap` of the
deduplicated CandidateURL list. -/
theorem claim_C10_articleCount_le_linkCount (env : ServeEnv) (a l : Nat)
    (ha : (runServe env).1.articleCount = some a)
    (hl : (runServe env).1.linkCount = some l) : a ≤ l := by
  rcases runServe_response env with ⟨e, he⟩ | he | he | ⟨s, he⟩
  · rw [he] at ha
    simp [errResponse] at ha
  · rw [he] at ha
    simp [noLinksResponse] at ha
  · rw [he] at ha hl
    simp only [noContentResponse, Option.some.injEq] at ha hl
    omega
  · rw [he] at ha hl
    simp only [mainResponse, Option.some.injEq] at ha hl
    subst ha
    subst hl
    exact List.length_filterMap_le _ _

theorem genSummary_effects (t : Str) (arts : List ArticleData)
    (model : Str → Except Str Str) :
    (genSummary t arts model).2 = [] ∨
      (genSummary t arts model).2 =
        [Effect.modelCall (promptFor t (validArticles arts))] := by
  unfold genSummary
  by_cases hv : (validArticles arts).isEmpty = true
  · rw [if_pos hv]
    exact Or.inl rfl
  · rw [if_neg hv]
    rcases hm : model (promptFor t (validArticles arts)) with e | s <;>
      exact Or.inr rfl

theorem genSummary_modelCall (t : Str) (arts : List ArticleData)
    (model : Str → Except Str Str) (p : Str)
    (h : Effect.modelCall p ∈ (genSummary t arts model).2) :
    p = promptFor t (validArticles arts) := by
  rcases genSummary_effects t arts model with he | he
  · rw [he] at h
    cases h
  · rw [he] at h
    simp only [List.mem_singleton, Effect.modelCall.injEq] at h
    exact h

/-- C2 (amended): with N candidate URLs of which K fail content-fetch, the
success response reports linkCount = N and articleCount = N − K (the number
of ContentRecords produced, whether or not they pass the minimum-text
threshold), and any prompt sent to the model is rendered over exactly the
threshold-qualifying records. -/
theorem claim_C2_counts_and_prompt (env : ServeEnv) (summary : Str)
    (gEffs : List Effect) (st : Nat)
    (hne : (collectUrls env).isEmpty = false)
    (harts : (((collectUrls env).filterMap env.scrape).isEmpty) = false)
    (hgen : genSummary env.todayStr ((collectUrls env).filterMap env.scrape)
        env.model = (Except.ok summary, gEffs))
    (hpost : env.postFetch summary = Except.ok st) :
    (runServe env).1 =
        mainResponse (collectUrls env).length
          ((collectUrls env).filterMap env.scrape).length env.todayStr summary ∧
      ∀ p, Effect.modelCall p ∈ (runServe env).2 →
        p = promptFor env.todayStr
          (validArticles ((collectUrls env).filterMap env.scrape)) := by
  have hrun : runServe env =
      (mainResponse (collectUrls env).length
          ((collectUrls env).filterMap env.scrape).length env.todayStr summary,
        (collectUrls env).map Effect.scrapeCall ++ gEffs ++
          [Effect.postMessage (buildPost env.todayStr summary)]) := by
    unfold runServe
    rw [hne, hgen]
    simp only [Bool.false_eq_true, if_false, harts, hpost]
  rw [hrun]
  refine ⟨rfl, ?_⟩
  intro p hp
  simp only [List.mem_append, List.mem_singleton, List.mem_map] at hp
  rcases hp with (⟨x, -, hx⟩ | hp) | hp
  · cases hx
  · refine genSummary_modelCall env.todayStr
      ((collectUrls env).filterMap env.scrape) env.model p ?_
    rw [hgen]
    exact hp
  · cases hp

def isPostEffect (eff : Effect) : Bool :=
  match eff with
  | Effect.postMessage _ => true
  | _ => false

theorem scrapeEffs_no_post (urls : List Str) :
    (urls.map Effect.scrapeCall).filter isPostEffect = [] := by
  rw [List.filter_eq_nil_iff]
  intro a ha
  simp only [List.mem_map] at ha
  obtain ⟨u, -, rfl⟩ := ha
  simp [isPostEffect]

/-- C6 (amended): a thrown publish failure is not retried — the run performs
exactly one publish attempt — and propagates as the trigger's error
response.  (A resolved non-success HTTP status, by contrast, is never
examined; see the counterexample.) -/
theorem claim_C6_publish_throw_propagates (env : ServeEnv) (summary e : Str)
    (gEffs : List Effect)
    (hne : (collectUrls env).isEmpty = false)
    (harts : (((collectUrls env).filterMap env.scrape).isEmpty) = false)
    (hgen : genSummary env.todayStr ((collectUrls env).filterMap env.scrape)
        env.model = (Except.ok summary, gEffs))
    (hpost : env.postFetch summary = Except.error e) :
    (runServe env).1 = errResponse e ∧
      ((runServe env).2.filter isPostEffect).length = 1 := by
  have hrun : runServe env =
      (errResponse e,
        (collectUrls env).map Effect.scrapeCall ++ gEffs ++
          [Effect.postMessage (buildPost env.todayStr summary)]) := by
    unfold runServe
    rw [hne, hgen]
    simp only [Bool.false_eq_true, if_false, harts, hpost]
  rw [hrun]
  refine ⟨rfl, ?_⟩
  have hg : gEffs.filter isPostEffect = [] := by
    rcases genSummary_effects env.todayStr
        ((collectUrls env).filterMap env.scrape) env.model with hx | hx <;>
      rw [hgen] at hx <;> simp only at hx <;> subst hx
    · rfl
    · rfl
  simp [List.filter_append, scrapeEffs_no_post, hg, isPostEffect]

/-! ## Exclusion invariant of the CandidateURL set -/

theorem addUrl_mem (acc : List Str) (raw x : Str) (hx : x ∈ addUrl acc raw) :
    x ∈ acc ∨ containsSub redditStr x = false := by
  unfold addUrl at hx
  by_cases hc : containsSub redditStr (normalizeUrl raw) = true
  · rw [if_pos hc] at hx
    exact Or.inl hx
  · rw [if_neg hc] at hx
    by_cases hm : normalizeUrl raw ∈ acc
    · rw [if_pos hm] at hx
      exact Or.inl hx
    · rw [if_neg hm] at hx
      rcases List.mem_append.mp hx with h | h
      · exact Or.inl h
      · simp only [List.mem_singleton] at h
        subst h
        exact Or.inr (by simpa using hc)

theorem foldl_mem_of_step {α : Type} (f : List Str → α → List Str)
    (hstep : ∀ acc a x, x ∈ f acc a → x ∈ acc ∨ containsSub redditStr x = false)
    (l : List α) (acc : List Str) (x : Str) (hx : x ∈ l.foldl f acc) :
    x ∈ acc ∨ containsSub redditStr x = false := by
  induction l generalizing acc with
  | nil => exact Or.inl hx
  | cons a as ih =>
    rcases ih (f acc a) hx with h | h
    · exact hstep acc a x h
    · exact Or.inr h

theorem collectMessage_mem (now : Int) (acc : List Str) (m : DiscordMessage)
    (x : Str) (hx : x ∈ collectMessage now acc m) :
    x ∈ acc ∨ containsSub redditStr x = false := by
  unfold collectMessage at hx
  by_cases hk : keepMessage now m.timestamp = true
  · rw [if_pos hk] at hx
    simp only at hx
    have h1 := foldl_mem_of_step
      (fun a e => match e with | some u => addUrl a u | none => a)
      (by
        intro acc' a x' hx'
        cases a with
        | some u => exact addUrl_mem acc' u x' hx'
        | none => exact Or.inl hx') m.embedUrls _ x hx
    rcases h1 with h1 | h1
    · exact foldl_mem_of_step addUrl (fun a b c => addUrl_mem a b c) _ _ x h1
    · exact Or.inr h1
  · rw [if_neg hk] at hx
    exact Or.inl hx

theorem collectUrls_excluded (env : ServeEnv) (x : Str)
    (hx : x ∈ collectUrls env) : containsSub redditStr x = false := by
  have h := foldl_mem_of_step (collectChannel env.now)
    (by
      intro acc ch x' hx'
      cases ch with
      | none => exact Or.inl hx'
      | some msgs =>
        exact foldl_mem_of_step (collectMessage env.now)
          (fun a m y hy => collectMessage_mem env.now a m y hy) msgs acc x' hx')
    env.channels [] x hx
  rcases h with h | h
  · cases h
  · exact h

/-- C3 (amended): a raw URL whose host contains the excluded substring
"reddit.com" is never inserted into the CandidateURL set, no matter how many
messages or embeds reference it; the exclusion test, however, runs on the
full normalized URL string rather than on the host alone, so it also drops
URLs that merely mention the substring in their path or query (see the
counterexample). -/
theorem claim_C3_excluded_host_never_inserted (env : ServeEnv) (raw : Str)
    (u : URLRec) (hp : parseURL raw = some u)
    (hr : containsSub redditStr u.host = true) :
    normalizeUrl raw ∉ collectUrls env := by
  intro hmem
  have hfalse := collectUrls_excluded env _ hmem
  have hinf : containsSub redditStr (normalizeUrl raw) = true := by
    rw [containsSub_iff]
    exact ((containsSub_iff _ _).mp hr).trans (host_infix_normalize raw u hp)
  rw [hinf] at hfalse
  cases hfalse

/-! ## Concrete runs used as witnesses and counterexamples -/

def c4Env : ServeEnv :=
  ⟨[], 0, "2025-01-01".toList, fun _ => none, fun _ => Except.error [],
    fun _ => Except.ok 200⟩

def c2Env : ServeEnv :=
  ⟨[some [⟨["https://a.com/x1".toList, "https://b.com/x2".toList], [], -1⟩]],
    0, "2025-01-01".toList,
    fun u =>
      if u = "https://a.com/x1".toList then
        some ⟨u, "T".toList, "abcdefghijklmnopqrstuvwxy".toList⟩
      else none,
    fun _ => Except.ok "SUMMARY".toList,
    fun _ => Except.ok 200⟩

def c2xEnv : ServeEnv :=
  ⟨[some [⟨["https://a.com/x1".toList], [], -1⟩]], 0, "2025-01-01".toList,
    fun u => if u = "https://a.com/x1".toList then some ⟨u, "T".toList, []⟩ else none,
    fun _ => Except.ok "SUMMARY".toList,
    fun _ => Except.ok 200⟩

def c6Env : ServeEnv :=
  ⟨[some [⟨["https://a.com/x1".toList, "https://b.com/x2".toList], [], -1⟩]],
    0, "2025-01-01".toList,
    fun u =>
      if u = "https://a.com/x1".toList then
        some ⟨u, "T".toList, "abcdefghijklmnopqrstuvwxy".toList⟩
      else none,
    fun _ => Except.ok "SUMMARY".toList,
    fun _ => Except.error "boom".toList⟩

def c6xEnv : ServeEnv :=
  ⟨[some [⟨["https://a.com/x1".toList, "https://b.com/x2".toList], [], -1⟩]],
    0, "2025-01-01".toList,
    fun u =>
      if u = "https://a.com/x1".toList then
        some ⟨u, "T".toList, "abcdefghijklmnopqrstuvwxy".toList⟩
      else none,
    fun _ => Except.ok "SUMMARY".toList,
    fun _ => Except.ok 500⟩

def c3Env : ServeEnv :=
  ⟨[some [⟨["https://old.reddit.com/r/ai".toList], [], -1⟩]], 0,
    "2025-01-01".toList, fun _ => none, fun _ => Except.error [],
    fun _ => Except.ok 200⟩

def c3xEnv : ServeEnv :=
  ⟨[some [⟨["https://example.com/reddit.com".toList], [], -1⟩]], 0,
    "2025-01-01".toList, fun _ => none, fun _ => Except.error [],
    fun _ => Except.ok 200⟩

/-- Witness for C4: empty channel list, resolving publish fetch. -/
theorem claim_C4_empty_short_circuit_witness :
    (collectUrls c4Env = [] ∧
      c4Env.postFetch (noLinksMessage c4Env.todayStr) = Except.ok 200) ∧
      runServe c4Env =
        (noLinksResponse,
          [Effect.postMessage (buildPost c4Env.todayStr
            (noLinksMessage c4Env.todayStr))]) :=
  ⟨⟨rfl, rfl⟩, claim_C4_empty_short_circuit c4Env 200 rfl rfl⟩

/-- Witness for C2 (amended): two candidate URLs, one failing scrape, one
record passing the threshold. -/
theorem claim_C2_counts_and_prompt_witness :
    ((collectUrls c2Env).isEmpty = false ∧
      ((collectUrls c2Env).filterMap c2Env.scrape).isEmpty = false ∧
      c2Env.postFetch "SUMMARY".toList = Except.ok 200) ∧
      (runServe c2Env).1 =
        mainResponse (collectUrls c2Env).length
          ((collectUrls c2Env).filterMap c2Env.scrape).length c2Env.todayStr
          "SUMMARY".toList :=
  ⟨⟨rfl, rfl, rfl⟩,
    (claim_C2_counts_and_prompt c2Env "SUMMARY".toList
      [Effect.modelCall (promptFor c2Env.todayStr
        (validArticles ((collectUrls c2Env).filterMap c2Env.scrape)))] 200
      rfl rfl rfl rfl).1⟩

/-- Counterexample for C2 as stated: one URL whose record has empty text is
reported in articleCount, while the threshold-qualifying count is 0. -/
theorem claim_C2_counterexample :
    (runServe c2xEnv).1.articleCount = some 1 ∧
      validArticles ((collectUrls c2xEnv).filterMap c2xEnv.scrape) = [] ∧
      ¬((runServe c2xEnv).1.articleCount =
          some (validArticles
            ((collectUrls c2xEnv).filterMap c2xEnv.scrape)).length) := by
  refine ⟨rfl, rfl, ?_⟩
  decide

/-- Witness for C6 (amended): a throwing publish fetch yields the error
response and a single publish attempt. -/
theorem claim_C6_publish_throw_propagates_witness :
    ((collectUrls c6Env).isEmpty = false ∧
      c6Env.postFetch "SUMMARY".toList = Except.error "boom".toList) ∧
      (runServe c6Env).1 = errResponse "boom".toList ∧
      ((runServe c6Env).2.filter isPostEffect).length = 1 :=
  ⟨⟨rfl, rfl⟩,
    claim_C6_publish_throw_propagates c6Env "SUMMARY".toList "boom".toList
      [Effect.modelCall (promptFor c6Env.todayStr
        (validArticles ((collectUrls c6Env).filterMap c6Env.scrape)))]
      rfl rfl rfl rfl⟩

/-- Counterexample for C6 as stated: every publish fetch resolves with HTTP
status 500, yet the run returns the success response — a non-success status
from the post-message endpoint does not propagate. -/
theorem claim_C6_counterexample :
    (∀ content : Str, c6xEnv.postFetch content = Except.ok 500) ∧
      (runServe c6xEnv).1.success = true ∧
      (runServe c6xEnv).1.errorMsg = none :=
  ⟨fun _ => rfl, rfl, rfl⟩

/-- Witness for C10: the run of `c2Env` reports articleCount 1 and
linkCount 2. -/
theorem claim_C10_articleCount_le_linkCount_witness :
    ((runServe c2Env).1.articleCount = some 1 ∧
      (runServe c2Env).1.linkCount = some 2) ∧ 1 ≤ 2 :=
  ⟨⟨rfl, rfl⟩, claim_C10_articleCount_le_linkCount c2Env 1 2 rfl rfl⟩

/-- Witness for C3 (amended): a URL on a reddit host, referenced by a
message inside the day window, never reaches the candidate set. -/
theorem claim_C3_excluded_host_never_inserted_witness :
    (parseURL "https://old.reddit.com/r/ai".toList =
        some ⟨"https".toList, "old.reddit.com".toList, "/r/ai".toList,
          none, none⟩ ∧
      containsSub redditStr "old.reddit.com".toList = true ∧
      collectUrls c3Env = []) ∧
      normalizeUrl "https://old.reddit.com/r/ai".toList ∉ collectUrls c3Env :=
  ⟨⟨by decide, by decide, rfl⟩,
    claim_C3_excluded_host_never_inserted c3Env
      "https://old.reddit.com/r/ai".toList
      ⟨"https".toList, "old.reddit.com".toList, "/r/ai".toList, none, none⟩
      (by decide) (by decide)⟩

/-- Counterexample for C3 as stated: a URL whose host does not contain the
excluded substring but whose path does is nevertheless excluded from the
candidate set, so exclusion is not "exactly when the host contains the
substring". -/
theorem claim_C3_counterexample :
    parseURL "https://example.com/reddit.com".toList =
        some ⟨"https".toList, "example.com".toList, "/reddit.com".toList,
          none, none⟩ ∧
      containsSub redditStr "example.com".toList = false ∧
      collectUrls c3xEnv = [] :=
  ⟨by decide, by decide, rfl⟩

/-! ## Content Fetcher: video path (`getYouTubeTranscript`, part_002 variant)

Identifier extraction parses the URL and reads the `v` search parameter on a
`youtube.com` host or the path after `/` on a `youtu.be` host; the caller
treats both a null and an empty identifier as "no identifier" (JavaScript
falsiness of `!videoId`).  With no `APIFY_API_TOKEN` configured the code
fetches only the video page itself for a title and returns a record with the
fixed placeholder text, never touching the transcript job API; if that page
fetch throws, the catch returns null (no record).  With a token configured
it starts an Apify actor run, polls its status up to 30 times, and fetches
the result dataset; each of those calls is a `transcriptApiCall` effect. -/

def splitOnAmp : Str → List Str
  | [] => [[]]
  | c :: cs =>
    if c = '&' then [] :: splitOnAmp cs
    else
      match splitOnAmp cs with
      | [] => [[c]]
      | p :: ps => (c :: p) :: ps

def hexVal (c : Char) : Option Nat :=
  if 48 ≤ c.toNat ∧ c.toNat ≤ 57 then some (c.toNat - 48)
  else if 97 ≤ c.toNat ∧ c.toNat ≤ 102 then some (c.toNat - 87)
  else if 65 ≤ c.toNat ∧ c.toNat ≤ 70 then some (c.toNat - 55)
  else none

/-- Percent- and plus-decoding of a URL search-parameter component (ASCII
fragment of the platform behaviour; malformed escapes pass through). -/
def percentDecode : Str → Str
  | [] => []
  | '+' :: rest => ' ' :: percentDecode rest
  | '%' :: a :: b :: rest =>
    match hexVal a, hexVal b with
    | some x, some y => Char.ofNat (16 * x + y) :: percentDecode rest
    | _, _ => '%' :: percentDecode (a :: b :: rest)
  | c :: rest => c :: percentDecode rest

def findParamV : List Str → Option Str
  | [] => none
  | p :: ps =>
    if (percentDecode (takeUntil (fun c => c = '=') p).1) = ['v'] then
      some (percentDecode
        (match (takeUntil (fun c => c = '=') p).2 with
          | [] => []
          | _ :: v => v))
    else findParamV ps

/-- Model of `parsed.searchParams.get('v')`. -/
def searchParamV (q : Option Str) : Option Str :=
  match q with
  | none => none
  | some qs => findParamV (splitOnAmp qs)

def ytHost : Str := "youtube.com".toList

def ytShortHost : Str := "youtu.be".toList

/-- Model of `extractYouTubeId` (part_002 variant, URL-parsing based). -/
def extractYouTubeId (s : Str) : Option Str :=
  match parseURL s with
  | none => none
  | some u =>
    if containsSub ytHost u.host then searchParamV u.query
    else if containsSub ytShortHost u.host then some (u.path.drop 1)
    else none

def stripPrefixCI : Str → Str → Option Str
  | [], s => some s
  | _ :: _, [] => none
  | p :: ps, c :: cs =>
    if p.toLower = c.toLower then stripPrefixCI ps cs else none

/-- Attempt of the regex `<title[^>]*>([^<]+)<\/title>/i` at one position
(both character classes are deterministic, so no backtracking arises within
a position). -/
def matchTitleAt (l : Str) : Option Str :=
  match stripPrefixCI "<title".toList l with
  | none => none
  | some r1 =>
    match (takeUntil (fun c => c = '>') r1).2 with
    | [] => none
    | _ :: r3 =>
      if (takeUntil (fun c => c = '<') r3).1.isEmpty then none
      else
        match stripPrefixCI "</title>".toList (takeUntil (fun c => c = '<') r3).2 with
        | some _ => some (takeUntil (fun c => c = '<') r3).1
        | none => none

/-- Leftmost match of the title regex over the whole document. -/
def findTitleMatch : Str → Option Str
  | [] => none
  | c :: cs =>
    match matchTitleAt (c :: cs) with
    | some t => some t
    | none => findTitleMatch cs

/-- Title of the fetched video page: first regex match trimmed, else the
synthesized `YouTube Video <id>` fallback. -/
def titleOrFallback (html : Str) (vid : Str) : Str :=
  match findTitleMatch html with
  | some t => trimStr t
  | none => "YouTube Video ".toList ++ vid

def noTranscriptText : Str := "[VIDEO - No transcript available]".toList

def transcriptMark : Str := "[VIDEO TRANSCRIPT] ".toList

/-- Oracles for the network calls `getYouTubeTranscript` can make: the video
page fetch, the Apify run start (`ok false` models a resolved non-ok status,
which the code turns into a thrown error), the status polls, and the dataset
fetch (each item reduced to its optional `transcript` field). -/
structure ApifyEnv where
  pageFetch : Except Str Str
  start : Except Str Bool
  statuses : Nat → Except Str Str
  dataset : Except Str (List (Option Str))

def isTerminalStatus (st : Str) : Bool :=
  st = "SUCCEEDED".toList || st = "FAILED".toList || st = "ABORTED".toList

/-- Poll loop: up to `fuel` status fetches (the source's `while (waited <
maxWait)` with a 2-second sleep and 60-second cap gives 30), stopping at a
terminal status; returns the last status seen and the number of polls. -/
def pollApify (statuses : Nat → Except Str Str) :
    Nat → Nat → Str → Except Str Str × Nat
  | _, 0, cur => (Except.ok cur, 0)
  | i, Nat.succ fuel, _ =>
    match statuses i with
    | Except.error e => (Except.error e, 1)
    | Except.ok st =>
      if isTerminalStatus st then (Except.ok st, 1)
      else
        ((pollApify statuses (i + 1) fuel st).1,
          (pollApify statuses (i + 1) fuel st).2 + 1)

/-- Catch handler of the transcript path: refetch the page for a title and
fall back to a placeholder record; a second throw yields null. -/
def ytCatchFallback (env : ApifyEnv) (url vid : Str) : Option ArticleData :=
  match env.pageFetch with
  | Except.error _ => none
  | Except.ok html => some ⟨url, titleOrFallback html vid, noTranscriptText⟩

/-- Model of `getYouTubeTranscript` (part_002 variant). -/
def getYouTubeTranscript (token : Option Str) (env : ApifyEnv) (url : Str) :
    Option ArticleData × List Effect :=
  match extractYouTubeId url with
  | none => (none, [])
  | some vid =>
    if vid.isEmpty then (none, [])
    else
      match token with
      | none =>
        (match env.pageFetch with
          | Except.error _ => none
          | Except.ok html =>
            some ⟨url, titleOrFallback html vid, noTranscriptText⟩, [])
      | some _ =>
        match env.pageFetch with
        | Except.error _ => (ytCatchFallback env url vid, [])
        | Except.ok html =>
          match env.start with
          | Except.error _ =>
            (ytCatchFallback env url vid, [Effect.transcriptApiCall])
          | Except.ok false =>
            (ytCatchFallback env url vid, [Effect.transcriptApiCall])
          | Except.ok true =>
            match (pollApify env.statuses 0 30 []).1 with
            | Except.error _ =>
              (ytCatchFallback env url vid,
                List.replicate (1 + (pollApify env.statuses 0 30 []).2)
                  Effect.transcriptApiCall)
            | Except.ok st =>
              if st = "SUCCEEDED".toList then
                match env.dataset with
                | Except.error _ =>
                  (ytCatchFallback env url vid,
                    List.replicate (2 + (pollApify env.statuses 0 30 []).2)
                      Effect.transcriptApiCall)
                | Except.ok items =>
                  match items with
                  | [] =>
                    (some ⟨url, titleOrFallback html vid, noTranscriptText⟩,
                      List.replicate (2 + (pollApify env.statuses 0 30 []).2)
                        Effect.transcriptApiCall)
                  | item :: _ =>
                    if (item.getD []).isEmpty then
                      (some ⟨url, titleOrFallback html vid, noTranscriptText⟩,
                        List.replicate (2 + (pollApify env.statuses 0 30 []).2)
                          Effect.transcriptApiCall)
                    else
                      (some ⟨url, titleOrFallback html vid,
                          transcriptMark ++ (item.getD []).take 2000⟩,
                        List.replicate (2 + (pollApify env.statuses 0 30 []).2)
                          Effect.transcriptApiCall)
              else
                (some ⟨url, titleOrFallback html vid, noTranscriptText⟩,
                  List.replicate (1 + (pollApify env.statuses 0 30 []).2)
                    Effect.transcriptApiCall)

example :
    extractYouTubeId "https://www.youtube.com/watch?v=abcdefghijk".toList =
      some "abcdefghijk".toList := by decide

example :
    extractYouTubeId "https://youtu.be/abcdefghijk".toList =
      some "abcdefghijk".toList := by decide

example : extractYouTubeId "https://youtu.be".toList = some [] := by decide

example : extractYouTubeId "https://a.com/x".toList = none := by decide

/-- C7 (amended): with the transcript credential absent, for every video URL
with an extractable (non-empty) identifier the Content Fetcher performs no
transcript-job API call whatsoever, and — whenever the video-page fetch
resolves — produces a ContentRecord whose text is the fixed placeholder
"[VIDEO - No transcript available]" (the video-without-transcript tag);
when that page fetch throws, the URL is dropped instead (see the
counterexample). -/
theorem claim_C7_no_token_placeholder (url vid html : Str) (env : ApifyEnv)
    (hid : extractYouTubeId url = some vid) (hne : vid.isEmpty = false)
    (hfetch : env.pageFetch = Except.ok html) :
    getYouTubeTranscript none env url =
        (some ⟨url, titleOrFallback html vid, noTranscriptText⟩, []) ∧
      ∀ env' : ApifyEnv, (getYouTubeTranscript none env' url).2 = [] := by
  constructor
  · unfold getYouTubeTranscript
    rw [hid]
    simp only [hne, Bool.false_eq_true, if_false, hfetch]
  · intro env'
    unfold getYouTubeTranscript
    rw [hid]
    simp only [hne, Bool.false_eq_true, if_false]

def c7Env : ApifyEnv :=
  ⟨Except.ok "<html><title>My Video - YouTube</title></html>".toList,
    Except.ok false, fun _ => Except.error [], Except.ok []⟩

def c7xEnv : ApifyEnv :=
  ⟨Except.error "network failure".toList, Except.ok false,
    fun _ => Except.error [], Except.ok []⟩

/-- Witness for C7 (amended): a `youtube.com` watch URL with an 11-character
identifier and a resolving page fetch yields the placeholder record and an
empty effect trace. -/
theorem claim_C7_no_token_placeholder_witness :
    (extractYouTubeId "https://www.youtube.com/watch?v=abcdefghijk".toList =
        some "abcdefghijk".toList ∧
      c7Env.pageFetch =
        Except.ok "<html><title>My Video - YouTube</title></html>".toList) ∧
      getYouTubeTranscript none c7Env
          "https://www.youtube.com/watch?v=abcdefghijk".toList =
        (some ⟨"https://www.youtube.com/watch?v=abcdefghijk".toList,
          titleOrFallback
            "<html><title>My Video - YouTube</title></html>".toList
            "abcdefghijk".toList,
          noTranscriptText⟩, []) :=
  ⟨⟨by decide, rfl⟩,
    (claim_C7_no_token_placeholder
      "https://www.youtube.com/watch?v=abcdefghijk".toList
      "abcdefghijk".toList
      "<html><title>My Video - YouTube</title></html>".toList
      c7Env (by decide) (by decide) rfl).1⟩

/-- Counterexample for C7 as stated: a valid video URL with an extractable
identifier but a throwing video-page fetch produces no ContentRecord at all
when the credential is missing. -/
theorem claim_C7_counterexample :
    extractYouTubeId "https://youtu.be/abcdefghijk".toList =
        some "abcdefghijk".toList ∧
      (getYouTubeTranscript none c7xEnv "https://youtu.be/abcdefghijk".toList).1 =
        none :=
  ⟨by decide, rfl⟩
